import Mathlib

/-!
Verification of the moving-average strategy engine in `src/services/binanceService.ts`
and the batch orchestration in `src/App.tsx` (the dual-timeframe edition of the
service, i.e. `analyzeInterval` / `analyzeSymbol`, which supersedes the earlier
single-timeframe copy kept in the same file).

Modelling conventions:
* JavaScript numbers (and the string-encoded prices that the code feeds through
  `parseFloat`) are modelled as exact rationals `ℚ`.  Division is total on `ℚ`
  (`x / 0 = 0`), whereas JS produces `Infinity`/`NaN`; all claims proved here are
  about inputs on which the JS computation stays finite.
* The JS falsiness test `!mas.ma120` is modelled as an equality test against `0`
  (the only falsy rational; `NaN`/`undefined` do not arise in the exact model).
* The network layer is modelled by passing the per-strategy attempt outcomes as
  data to `fetchKlines`; candle lists are likewise passed directly to
  `analyzeInterval` instead of being fetched.
* The human-readable reason strings are modelled by the inductive `Reason`,
  one constructor per template string of the source, carrying the interpolated
  numeric value where the template interpolates one (`toFixed(2)` rendering of
  that number is presentation and is not modelled).
-/

attribute [local semireducible] Rat.add Rat.mul Rat.sub Rat.inv

set_option maxRecDepth 1000000

namespace MAStrategy

/-- Signal variants, the `SignalType` enum of `types.ts` (its Chinese string
values are irrelevant to the logic and not modelled). -/
inductive SignalType where
  | LONG
  | SHORT
  | WAIT
  | WATCH
deriving DecidableEq, Repr

/-- Timeframe tag: the code analyses the two intervals `'1h'` and `'4h'`. -/
inductive Interval where
  | h1
  | h4
deriving DecidableEq, Repr

/-- One candle, the `Kline` interface of `types.ts`.  The TS interface stores
prices as strings and every consumer immediately applies `parseFloat`; the
parsed numeric value is modelled directly as `ℚ`. -/
structure Kline where
  openTime : ℚ
  «open» : ℚ
  high : ℚ
  low : ℚ
  close : ℚ
  volume : ℚ
  closeTime : ℚ
deriving DecidableEq, Repr

instance : Inhabited Kline := ⟨⟨0, 0, 0, 0, 0, 0, 0⟩⟩

/-- The six moving-average values, the `MASet` interface of `types.ts`. -/
structure MASet where
  ma20 : ℚ
  ma60 : ℚ
  ma120 : ℚ
  ema20 : ℚ
  ema60 : ℚ
  ema120 : ℚ
deriving DecidableEq, Repr

/-- The reason string of a `TradeSetup`, one constructor per template string of
`analyzeInterval`, carrying the number the template interpolates. -/
inductive Reason where
  | diverging
  | dense (densityScore : ℚ)
  | bullishBreakout
  | bearishBreakdown
  | ranAway (priceDeviation : ℚ)
deriving DecidableEq, Repr

/-- The result record, the `TradeSetup` interface of `types.ts` extended with
the `interval` tag that the dual-timeframe edition adds. -/
structure TradeSetup where
  symbol : String
  interval : Interval
  price : ℚ
  mas : MASet
  densityScore : ℚ
  priceDeviation : ℚ
  atr : ℚ
  signal : SignalType
  entryPrice : ℚ
  stopLoss : ℚ
  takeProfit : ℚ
  isDense : Bool
  reason : Reason
deriving DecidableEq, Repr

instance : Inhabited TradeSetup :=
  ⟨{ symbol := ""
     interval := .h4
     price := 0
     mas := ⟨0, 0, 0, 0, 0, 0⟩
     densityScore := 0
     priceDeviation := 0
     atr := 0
     signal := .WAIT
     entryPrice := 0
     stopLoss := 0
     takeProfit := 0
     isDense := false
     reason := .diverging }⟩

/-- Running EMA recurrence of `calculateEMA`: given the previous EMA, emits
`close * k + previousEma * (1 - k)` for each remaining close. -/
def emaScan (k : ℚ) : ℚ → List ℚ → List ℚ
  | _, [] => []
  | prev, c :: cs => (c * k + prev * (1 - k)) :: emaScan k (c * k + prev * (1 - k)) cs

/-- The `calculateEMA` function: empty when there are fewer than `period`
candles; otherwise `period - 1` zero placeholders, the seed (simple average of
the first `period` closes), then the recurrence over the remaining closes. -/
def calculateEMA (klines : List Kline) (period : ℕ) : List ℚ :=
  if klines.length < period then []
  else
    List.replicate (period - 1) 0 ++
      ((klines.map Kline.close).take period).sum / (period : ℚ) ::
        emaScan (2 / ((period : ℚ) + 1))
          (((klines.map Kline.close).take period).sum / (period : ℚ))
          ((klines.map Kline.close).drop period)

/-- The `calculateSMA` function: empty when there are fewer than `period`
candles; otherwise `period - 1` zero placeholders followed by, for each
`i ≥ period - 1`, the mean of the `period` closes ending at `i` (the window
starting at `j = i - period + 1`). -/
def calculateSMA (klines : List Kline) (period : ℕ) : List ℚ :=
  if klines.length < period then []
  else
    List.replicate (period - 1) 0 ++
      (List.range (klines.length - period + 1)).map
        (fun j => (((klines.map Kline.close).drop j).take period).sum / (period : ℚ))

/-- True range of one candle given its predecessor, as computed inside
`calculateATR`. -/
def trueRange (prev cur : Kline) : ℚ :=
  max (cur.high - cur.low) (max |cur.high - prev.close| |cur.low - prev.close|)

/-- The `calculateATR` function: `0` when there are fewer than `period + 1`
candles; otherwise the mean of the true ranges of the last `period` candles. -/
def calculateATR (klines : List Kline) (period : ℕ := 14) : ℚ :=
  if klines.length < period + 1 then 0
  else
    (((klines.zip (klines.drop 1)).drop ((klines.zip (klines.drop 1)).length - period)).map
      (fun pc => trueRange pc.1 pc.2)).sum / (period : ℚ)

/-- JS indexing `arr[arr.length - 1]` (with `undefined` on the empty array
modelled as `0`, matching how the code then treats it as falsy). -/
def jsLast (l : List ℚ) : ℚ := l.getD (l.length - 1) 0

/-- Current price: `parseFloat(klines[klines.length - 1].close)`. -/
def lastClose (klines : List Kline) : ℚ := jsLast (klines.map Kline.close)

/-- The `mas` record built in `analyzeInterval`: the last element of each of
the six series. -/
def maSetOf (klines : List Kline) : MASet :=
  { ma20 := jsLast (calculateSMA klines 20)
    ma60 := jsLast (calculateSMA klines 60)
    ma120 := jsLast (calculateSMA klines 120)
    ema20 := jsLast (calculateEMA klines 20)
    ema60 := jsLast (calculateEMA klines 60)
    ema120 := jsLast (calculateEMA klines 120) }

/-- The list `Object.values(mas)` (insertion order of the `MASet` literal). -/
def MASet.values (m : MASet) : List ℚ :=
  [m.ma20, m.ma60, m.ma120, m.ema20, m.ema60, m.ema120]

/-- The value `Math.max(...allValues)`. -/
def maxOf (m : MASet) : ℚ :=
  max m.ma20 (max m.ma60 (max m.ma120 (max m.ema20 (max m.ema60 m.ema120))))

/-- The value `Math.min(...allValues)`. -/
def minOf (m : MASet) : ℚ :=
  min m.ma20 (min m.ma60 (min m.ma120 (min m.ema20 (min m.ema60 m.ema120))))

/-- The density score: `(spread / currentPrice) * 100`. -/
def densityScoreOf (klines : List Kline) : ℚ :=
  (maxOf (maSetOf klines) - minOf (maSetOf klines)) / lastClose klines * 100

/-- The mean of the six moving-average values. -/
def averageMAOf (klines : List Kline) : ℚ :=
  (maSetOf klines).values.sum / ((maSetOf klines).values.length : ℚ)

/-- The price deviation: `|currentPrice - averageMA| / currentPrice * 100`. -/
def priceDeviationOf (klines : List Kline) : ℚ :=
  |lastClose klines - averageMAOf klines| / lastClose klines * 100

/-- The fixed threshold `DENSE_THRESHOLD = 2.0`. -/
def DENSE_THRESHOLD : ℚ := 2

/-- The fixed threshold `PRICE_DEV_THRESHOLD = 3.0`. -/
def PRICE_DEV_THRESHOLD : ℚ := 3

/-- The `isDense` flag: both thresholds satisfied. -/
def isDenseOf (klines : List Kline) : Bool :=
  decide (densityScoreOf klines < DENSE_THRESHOLD) &&
    decide (priceDeviationOf klines < PRICE_DEV_THRESHOLD)

/-- The condition `mas.ma20 > mas.ma60 && mas.ma60 > mas.ma120`. -/
def isBullishAlignment (m : MASet) : Bool :=
  decide (m.ma20 > m.ma60) && decide (m.ma60 > m.ma120)

/-- The condition `mas.ma20 < mas.ma60 && mas.ma60 < mas.ma120`. -/
def isBearishAlignment (m : MASet) : Bool :=
  decide (m.ma20 < m.ma60) && decide (m.ma60 < m.ma120)

/-- The signal assignment of `analyzeInterval`, in source branch order. -/
def classifySignal (klines : List Kline) : SignalType :=
  if isDenseOf klines then .WATCH
  else if isBullishAlignment (maSetOf klines) &&
      decide (lastClose klines > maxOf (maSetOf klines)) then .LONG
  else if isBearishAlignment (maSetOf klines) &&
      decide (lastClose klines < minOf (maSetOf klines)) then .SHORT
  else .WAIT

/-- The reason assignment of `analyzeInterval`, in source branch order (the
final `else` keeps the initially assigned generic reason). -/
def reasonOf (klines : List Kline) : Reason :=
  if isDenseOf klines then .dense (densityScoreOf klines)
  else if isBullishAlignment (maSetOf klines) &&
      decide (lastClose klines > maxOf (maSetOf klines)) then .bullishBreakout
  else if isBearishAlignment (maSetOf klines) &&
      decide (lastClose klines < minOf (maSetOf klines)) then .bearishBreakdown
  else if decide (densityScoreOf klines < DENSE_THRESHOLD) &&
      decide (priceDeviationOf klines ≥ PRICE_DEV_THRESHOLD) then
    .ranAway (priceDeviationOf klines)
  else .diverging

/-- The stop-loss buffer `slBuffer = atr * 2`. -/
def slBufferOf (klines : List Kline) : ℚ := calculateATR klines 14 * 2

/-- The stop-loss assignment of `analyzeInterval`. -/
def stopLossOf (klines : List Kline) : ℚ :=
  if classifySignal klines = .LONG ∨ classifySignal klines = .WATCH then
    minOf (maSetOf klines) - slBufferOf klines
  else
    maxOf (maSetOf klines) + slBufferOf klines

/-- The take-profit assignment of `analyzeInterval` (fixed 1:2 risk/reward). -/
def takeProfitOf (klines : List Kline) : ℚ :=
  if classifySignal klines = .LONG ∨ classifySignal klines = .WATCH then
    lastClose klines + (lastClose klines - stopLossOf klines) * 2
  else
    lastClose klines - (stopLossOf klines - lastClose klines) * 2

/-- The `analyzeInterval` evaluator, with the candle list passed directly
(the source fetches it first). -/
def analyzeInterval (symbol : String) (interval : Interval) (klines : List Kline) :
    Option TradeSetup :=
  if klines.length < 150 then none
  else if (maSetOf klines).ma120 = 0 ∨ (maSetOf klines).ema120 = 0 then none
  else some
    { symbol := symbol
      interval := interval
      price := lastClose klines
      mas := maSetOf klines
      densityScore := densityScoreOf klines
      priceDeviation := priceDeviationOf klines
      atr := calculateATR klines 14
      signal := classifySignal klines
      entryPrice := lastClose klines
      stopLoss := stopLossOf klines
      takeProfit := takeProfitOf klines
      isDense := isDenseOf klines
      reason := reasonOf klines }

/-- The signal of an optional setup, `setup?.signal` in the source. -/
def signalOf (o : Option TradeSetup) : Option SignalType := o.map TradeSetup.signal

/-- A present result carrying a directional (`Long`/`Short`) signal. -/
def directional (o : Option TradeSetup) : Prop :=
  signalOf o = some SignalType.LONG ∨ signalOf o = some SignalType.SHORT

instance (o : Option TradeSetup) : Decidable (directional o) := by
  unfold directional; infer_instance

/-- The selection logic of `analyzeSymbol` over the two per-timeframe results
(the two `analyzeInterval` runs are modelled by passing their results in). -/
def analyzeSymbolSelect (setup4h setup1h : Option TradeSetup) : Option TradeSetup :=
  if signalOf setup4h = some .WATCH then setup4h
  else if signalOf setup1h = some .WATCH then setup1h
  else if signalOf setup4h = some .LONG ∨ signalOf setup4h = some .SHORT then setup4h
  else if signalOf setup1h = some .LONG ∨ signalOf setup1h = some .SHORT then setup1h
  else if setup4h.isSome then setup4h
  else if setup1h.isSome then setup1h
  else none

/-- The observable outcome of one fetch strategy attempt in `fetchKlines`:
a transport/parse failure, a parsed API error object (`data.code && data.msg`),
or a parsed JSON array of rows (each row a 7+ element numeric array). -/
inductive FetchOutcome where
  | failure
  | apiError
  | payload (rows : List (List ℚ))
deriving DecidableEq, Repr

/-- One row mapped to a candle, the `mapData` per-row mapping (`d[0] .. d[6]`). -/
def mapRow (d : List ℚ) : Kline :=
  { openTime := d.getD 0 0
    «open» := d.getD 1 0
    high := d.getD 2 0
    low := d.getD 3 0
    close := d.getD 4 0
    volume := d.getD 5 0
    closeTime := d.getD 6 0 }

/-- The `mapData` helper. -/
def mapData (data : List (List ℚ)) : List Kline := data.map mapRow

/-- Whether one attempt yields a syntactically valid, non-empty candle array
(the only case in which the strategy loop returns instead of falling through). -/
def attemptSucceeds : FetchOutcome → Bool
  | .payload rows => decide (0 < rows.length)
  | _ => false

/-- The strategy loop of `fetchKlines`: first non-empty parsed array wins, every
other outcome falls through silently, exhaustion yields the empty list. -/
def fetchKlines : List FetchOutcome → List Kline
  | [] => []
  | a :: rest =>
    match a with
    | .payload rows => if 0 < rows.length then mapData rows else fetchKlines rest
    | _ => fetchKlines rest

/-- The sort comparator of `fetchAllData` in `App.tsx`: `Watch` first, `0`
(keep relative order) otherwise. -/
def watchCmp (a b : TradeSetup) : Int :=
  if a.signal = SignalType.WATCH ∧ b.signal ≠ SignalType.WATCH then -1
  else if b.signal = SignalType.WATCH ∧ a.signal ≠ SignalType.WATCH then 1
  else 0

/-- Stable insertion relative to a comparator: the new element is placed before
the first element it must not follow. -/
def sortInsert (cmp : TradeSetup → TradeSetup → Int) (x : TradeSetup) :
    List TradeSetup → List TradeSetup
  | [] => [x]
  | y :: ys => if cmp x y ≤ 0 then x :: y :: ys else y :: sortInsert cmp x ys

/-- Stable sort by a comparator.  `Array.prototype.sort` is specified to be
stable, and with a consistent comparator the stable order is unique, so any
stable sort models the JS call; insertion sort is used here. -/
def stableSort (cmp : TradeSetup → TradeSetup → Int) : List TradeSetup → List TradeSetup
  | [] => []
  | x :: xs => sortInsert cmp x (stableSort cmp xs)

/-- The result pipeline of `fetchAllData` in `App.tsx`, taking the
per-instrument results as input: drop the nulls, then the stable
`Watch`-first sort. -/
def fetchAllData (results : List (Option TradeSetup)) : List TradeSetup :=
  stableSort watchCmp (results.filterMap id)

/-- Mean of the trailing `p` closes, the value the spec asserts for the final
SMA element. -/
def trailingMean (klines : List Kline) (p : ℕ) : ℚ :=
  ((klines.map Kline.close).drop (klines.length - p)).sum / (p : ℚ)

/-- Mean of the first `p` closes, the EMA seed value. -/
def leadingMean (klines : List Kline) (p : ℕ) : ℚ :=
  ((klines.map Kline.close).take p).sum / (p : ℚ)

/-- The closed form of the final EMA element: the seed pushed through the
recurrence over every close from position `p` on. -/
def emaFinal (klines : List Kline) (p : ℕ) : ℚ :=
  ((klines.map Kline.close).drop p).foldl
    (fun prev c => c * (2 / ((p : ℚ) + 1)) + prev * (1 - 2 / ((p : ℚ) + 1)))
    (leadingMean klines p)

/-- True range at index `i` of a candle list, phrased with explicit indices
(used to state the ATR claim). -/
def trAt (klines : List Kline) (i : ℕ) : ℚ :=
  trueRange (klines.getD (i - 1) default) (klines.getD i default)

/-- A fixed instrument symbol for the concrete evaluations. -/
def sampleSymbol : String := "BTCUSDT"

/-- A completely flat candle: all prices equal to `c`. -/
def flatKline (c : ℚ) : Kline :=
  { openTime := 0, «open» := c, high := c, low := c, close := c, volume := 0, closeTime := 0 }

/-- A candle with explicit high/low/close. -/
def mkKline (h l c : ℚ) : Kline :=
  { openTime := 0, «open» := c, high := h, low := l, close := c, volume := 0, closeTime := 0 }

/-- A flat 150-candle history at price 100. -/
def flatCandles : List Kline := List.replicate 150 (flatKline 100)

/-- A history that sits flat at 102 and drops to 100 on the final candle (its
high 102, low 100): only the last true range is non-zero, so the ATR is 1/7
and the stop-loss buffer 2/7 — far less than the 1.8 by which the six averages
sit above the final close. -/
def c1Candles : List Kline :=
  List.replicate 149 (flatKline 102) ++ [mkKline 102 100 100]

/-- A 150-candle history whose six moving averages all come out exactly 100
while the final close is 100.5: flat at 100 up to index 144, then five exactly
balanced corrections (the unique degree-4 polynomial correction vanishing on
all three EMA weights and on the SMA window sums). -/
def c2Candles : List Kline :=
  List.replicate 145 (flatKline 100) ++
    [flatKline (100 + 22143 / 38114),
     flatKline (100 - 298799 / 133399),
     flatKline (100 + 25400 / 7847),
     flatKline (100 - 277201 / 133399),
     flatKline (201 / 2)]

/-- The setup produced from the flat history (used as a concrete witness). -/
def flatSetup : TradeSetup :=
  (analyzeInterval sampleSymbol Interval.h4 flatCandles).getD default

/-- The setup produced from `c2Candles` (used as a concrete witness). -/
def c2Setup : TradeSetup :=
  (analyzeInterval sampleSymbol Interval.h4 c2Candles).getD default

/-- A dummy trade setup with a prescribed signal, for exercising the
timeframe arbiter on concrete inputs. -/
def dummySetup (iv : Interval) (sig : SignalType) : TradeSetup :=
  { symbol := sampleSymbol
    interval := iv
    price := 100
    mas := ⟨100, 100, 100, 100, 100, 100⟩
    densityScore := 0
    priceDeviation := 0
    atr := 1
    signal := sig
    entryPrice := 100
    stopLoss := 98
    takeProfit := 104
    isDense := false
    reason := .diverging }

/-- A valid 300-row upstream payload (each row 7 numeric fields). -/
def sampleRows : List (List ℚ) := List.replicate 300 [1, 2, 3, 4, 5, 6, 7]

/-- A three-candle history with distinct closes, for the indicator witnesses. -/
def smallCandles : List Kline := [mkKline 12 8 10, mkKline 24 16 20, mkKline 18 12 14]

/-- The C6 statement at one candle list and period: both series are empty below
`period` candles; otherwise both are aligned to the input (same length, zero
placeholders before `period - 1`), the final SMA element is the mean of the
trailing `period` closes, and the EMA is seeded at `period - 1` with the mean
of the first `period` closes and then follows the smoothing recurrence. -/
def C6Prop (kl : List Kline) (p : ℕ) : Prop :=
  (kl.length < p → calculateSMA kl p = [] ∧ calculateEMA kl p = []) ∧
  (p ≤ kl.length →
    (calculateSMA kl p).length = kl.length ∧
    (calculateEMA kl p).length = kl.length ∧
    (∀ i, i < p - 1 → (calculateSMA kl p).getD i 0 = 0) ∧
    (∀ i, i < p - 1 → (calculateEMA kl p).getD i 0 = 0) ∧
    jsLast (calculateSMA kl p) = trailingMean kl p ∧
    (calculateEMA kl p).getD (p - 1) 0 = leadingMean kl p ∧
    (∀ i, p ≤ i → i < kl.length →
      (calculateEMA kl p).getD i 0 =
        (kl.map Kline.close).getD i 0 * (2 / ((p : ℚ) + 1)) +
          (calculateEMA kl p).getD (i - 1) 0 * (1 - 2 / ((p : ℚ) + 1))))

/-- The C7 statement at one candle list and period: zero below `period + 1`
candles, otherwise the mean of the true ranges at the last `period` indices. -/
def C7Prop (kl : List Kline) (p : ℕ) : Prop :=
  (kl.length < p + 1 → calculateATR kl p = 0) ∧
  (p + 1 ≤ kl.length →
    calculateATR kl p =
      ((List.range p).map (fun j => trAt kl (kl.length - p + j))).sum / (p : ℚ))

/-- The C10 statement at one candle list: all six series have the input length
(hence are non-empty, so the final-element reads are in bounds), and each read
value is the corresponding full-window average, never a padding placeholder. -/
def C10Prop (kl : List Kline) : Prop :=
  (calculateSMA kl 20).length = kl.length ∧
  (calculateSMA kl 60).length = kl.length ∧
  (calculateSMA kl 120).length = kl.length ∧
  (calculateEMA kl 20).length = kl.length ∧
  (calculateEMA kl 60).length = kl.length ∧
  (calculateEMA kl 120).length = kl.length ∧
  (maSetOf kl).ma20 = trailingMean kl 20 ∧
  (maSetOf kl).ma60 = trailingMean kl 60 ∧
  (maSetOf kl).ma120 = trailingMean kl 120 ∧
  (maSetOf kl).ema20 = emaFinal kl 20 ∧
  (maSetOf kl).ema60 = emaFinal kl 60 ∧
  (maSetOf kl).ema120 = emaFinal kl 120

/-- The C1 statement at one trade setup: strict stop/take-profit sides for the
directional signals, and the 1:2 mirror identity of the code's formulas for
`Watch` and `Wait` (whose side placement is not guaranteed). -/
def C1Prop (t : TradeSetup) : Prop :=
  (t.signal = SignalType.LONG → t.stopLoss < t.price ∧ t.price < t.takeProfit) ∧
  (t.signal = SignalType.SHORT → t.takeProfit < t.price ∧ t.price < t.stopLoss) ∧
  (t.signal = SignalType.WATCH → t.takeProfit - t.price = 2 * (t.price - t.stopLoss)) ∧
  (t.signal = SignalType.WAIT → t.price - t.takeProfit = 2 * (t.stopLoss - t.price))

/-- The C4 statement at one candle list and accepted setup: the signal and the
reason follow the source's branch priority — dense first, then bullish
breakout, then bearish breakdown, then the tight-but-ran-away `Wait`, then the
generic `Wait`. -/
def C4Prop (kl : List Kline) (t : TradeSetup) : Prop :=
  (isDenseOf kl = true →
    t.signal = SignalType.WATCH ∧ t.reason = Reason.dense (densityScoreOf kl)) ∧
  (isDenseOf kl = false → isBullishAlignment (maSetOf kl) = true →
    maxOf (maSetOf kl) < lastClose kl →
    t.signal = SignalType.LONG ∧ t.reason = Reason.bullishBreakout) ∧
  (isDenseOf kl = false → isBearishAlignment (maSetOf kl) = true →
    lastClose kl < minOf (maSetOf kl) →
    t.signal = SignalType.SHORT ∧ t.reason = Reason.bearishBreakdown) ∧
  (isDenseOf kl = false →
    (isBullishAlignment (maSetOf kl) && decide (lastClose kl > maxOf (maSetOf kl))) = false →
    (isBearishAlignment (maSetOf kl) && decide (lastClose kl < minOf (maSetOf kl))) = false →
    densityScoreOf kl < DENSE_THRESHOLD → PRICE_DEV_THRESHOLD ≤ priceDeviationOf kl →
    t.signal = SignalType.WAIT ∧ t.reason = Reason.ranAway (priceDeviationOf kl)) ∧
  (isDenseOf kl = false →
    (isBullishAlignment (maSetOf kl) && decide (lastClose kl > maxOf (maSetOf kl))) = false →
    (isBearishAlignment (maSetOf kl) && decide (lastClose kl < minOf (maSetOf kl))) = false →
    ¬(densityScoreOf kl < DENSE_THRESHOLD ∧ PRICE_DEV_THRESHOLD ≤ priceDeviationOf kl) →
    t.signal = SignalType.WAIT ∧ t.reason = Reason.diverging)

/-! Helper lemmas. -/

theorem sortInsert_all_le {cmp : TradeSetup → TradeSetup → Int} {x : TradeSetup} :
    ∀ {l : List TradeSetup}, (∀ y ∈ l, cmp x y ≤ 0) → sortInsert cmp x l = x :: l
  | [], _ => rfl
  | y :: ys, h => by
    unfold sortInsert
    rw [if_pos (h y (List.mem_cons_self y ys))]

theorem sortInsert_skip {cmp : TradeSetup → TradeSetup → Int} {x : TradeSetup} :
    ∀ {A : List TradeSetup} (B : List TradeSetup), (∀ y ∈ A, 0 < cmp x y) →
      sortInsert cmp x (A ++ B) = A ++ sortInsert cmp x B
  | [], _, _ => rfl
  | y :: ys, B, h => by
    have hy : ¬ cmp x y ≤ 0 := not_le.mpr (h y (List.mem_cons_self y ys))
    simp only [List.cons_append, sortInsert, List.append_eq]
    rw [if_neg hy, sortInsert_skip B (fun z hz => h z (List.mem_cons_of_mem y hz))]

theorem watchCmp_nonpos_left {x : TradeSetup} (hx : x.signal = SignalType.WATCH)
    (y : TradeSetup) : watchCmp x y ≤ 0 := by
  unfold watchCmp
  split_ifs with h1 h2
  · norm_num
  · exact absurd hx h2.2
  · exact le_refl 0

theorem watchCmp_pos_right {x y : TradeSetup} (hx : ¬ x.signal = SignalType.WATCH)
    (hy : y.signal = SignalType.WATCH) : 0 < watchCmp x y := by
  unfold watchCmp
  rw [if_neg (fun h => hx h.1), if_pos ⟨hy, hx⟩]
  norm_num

theorem watchCmp_nonpos_nonwatch {x y : TradeSetup} (hy : ¬ y.signal = SignalType.WATCH) :
    watchCmp x y ≤ 0 := by
  unfold watchCmp
  split_ifs with h1 h2
  · norm_num
  · exact absurd h2.1 hy
  · exact le_refl 0

theorem stableSort_watchCmp_partition (l : List TradeSetup) :
    stableSort watchCmp l =
      l.filter (fun t => t.signal = SignalType.WATCH) ++
        l.filter (fun t => ¬ t.signal = SignalType.WATCH) := by
  induction l with
  | nil => rfl
  | cons x xs ih =>
    by_cases hx : x.signal = SignalType.WATCH
    · rw [stableSort, ih, sortInsert_all_le (fun y _ => watchCmp_nonpos_left hx y)]
      rw [List.filter_cons_of_pos (by simpa using hx),
        List.filter_cons_of_neg (by simpa using hx)]
      rfl
    · rw [stableSort, ih]
      rw [sortInsert_skip _ (fun y hy => by
        have : y.signal = SignalType.WATCH := by
          have := List.of_mem_filter hy
          simpa using this
        exact watchCmp_pos_right hx this)]
      rw [sortInsert_all_le (fun y hy => by
        have : ¬ y.signal = SignalType.WATCH := by
          have := List.of_mem_filter hy
          simpa using this
        exact watchCmp_nonpos_nonwatch this)]
      rw [List.filter_cons_of_neg (by simpa using hx),
        List.filter_cons_of_pos (by simpa using hx)]

/-! Claim theorems. -/

/-- C3: the evaluator returns none exactly in the insufficient-data cases —
fewer than 150 candles, or a 120-period average that resolves to the falsy
placeholder (`0` in the exact model) — and a `TradeSetup` otherwise. -/
theorem evaluate_none_iff (s : String) (iv : Interval) (kl : List Kline) :
    analyzeInterval s iv kl = none ↔
      kl.length < 150 ∨ (maSetOf kl).ma120 = 0 ∨ (maSetOf kl).ema120 = 0 := by
  unfold analyzeInterval
  split
  · simp_all
  · split <;> simp_all

/-- C3 witness: the empty candle list is rejected. -/
theorem evaluate_none_iff_witness :
    analyzeInterval sampleSymbol Interval.h4 [] = none :=
  (evaluate_none_iff sampleSymbol Interval.h4 []).mpr (Or.inl (by decide))

/-- C5: the timeframe arbiter picks by top-down priority — any `Watch` result
first (4h preferred), then any directional result (4h preferred), then the 4h
result if present, else the 1h result; in particular one `Watch` and one `Long`
always yield the `Watch` one. -/
theorem arbiter_priority (s4 s1 : Option TradeSetup) :
    (signalOf s4 = some SignalType.WATCH → analyzeSymbolSelect s4 s1 = s4) ∧
    (signalOf s4 ≠ some SignalType.WATCH → signalOf s1 = some SignalType.WATCH →
      analyzeSymbolSelect s4 s1 = s1) ∧
    (signalOf s4 ≠ some SignalType.WATCH → signalOf s1 ≠ some SignalType.WATCH →
      directional s4 → analyzeSymbolSelect s4 s1 = s4) ∧
    (signalOf s4 ≠ some SignalType.WATCH → signalOf s1 ≠ some SignalType.WATCH →
      ¬ directional s4 → directional s1 → analyzeSymbolSelect s4 s1 = s1) ∧
    (signalOf s4 ≠ some SignalType.WATCH → signalOf s1 ≠ some SignalType.WATCH →
      ¬ directional s4 → ¬ directional s1 →
      analyzeSymbolSelect s4 s1 = if s4.isSome then s4 else s1) ∧
    (signalOf s4 = some SignalType.LONG → signalOf s1 = some SignalType.WATCH →
      analyzeSymbolSelect s4 s1 = s1) ∧
    (signalOf s4 = some SignalType.WATCH → signalOf s1 = some SignalType.LONG →
      analyzeSymbolSelect s4 s1 = s4) := by
  refine ⟨?_, ?_, ?_, ?_, ?_, ?_, ?_⟩
  · intro h
    simp [analyzeSymbolSelect, h]
  · intro h h1
    simp [analyzeSymbolSelect, h, h1]
  · intro h h1 hd
    unfold directional at hd
    rcases hd with hd | hd <;> simp [analyzeSymbolSelect, h, h1, hd]
  · intro h h1 hd4 hd1
    unfold directional at hd4 hd1
    rcases hd1 with hd | hd <;> simp [analyzeSymbolSelect, h, h1, hd4, hd]
  · intro h h1 hd4 hd1
    unfold directional at hd4 hd1
    cases s4 <;> cases s1 <;> simp_all [analyzeSymbolSelect, signalOf]
  · intro h h1
    have h4 : signalOf s4 ≠ some SignalType.WATCH := by simp [h]
    simp [analyzeSymbolSelect, h4, h1]
  · intro h h1
    simp [analyzeSymbolSelect, h]

/-- C5 witness: a 4h `Long` against a 1h `Watch` yields the `Watch` result. -/
theorem arbiter_priority_witness :
    analyzeSymbolSelect (some (dummySetup Interval.h4 SignalType.LONG))
        (some (dummySetup Interval.h1 SignalType.WATCH)) =
      some (dummySetup Interval.h1 SignalType.WATCH) :=
  (arbiter_priority _ _).2.2.2.2.2.1 (by decide) (by decide)

/-- C8: the candle source returns the mapped rows of the first strategy that
yields a non-empty parsed array (a failing prefix falls through silently), and
the empty list when every strategy fails; it never propagates an error. -/
theorem fetch_fallback_spec :
    (∀ attempts : List FetchOutcome,
        (∀ a ∈ attempts, attemptSucceeds a = false) → fetchKlines attempts = []) ∧
    (∀ (pre : List FetchOutcome) (rows : List (List ℚ)) (post : List FetchOutcome),
        (∀ a ∈ pre, attemptSucceeds a = false) → rows ≠ [] →
        fetchKlines (pre ++ FetchOutcome.payload rows :: post) = mapData rows) := by
  constructor
  · intro attempts h
    induction attempts with
    | nil => rfl
    | cons a rest ih =>
      have hrest : ∀ x ∈ rest, attemptSucceeds x = false :=
        fun x hx => h x (List.mem_cons_of_mem a hx)
      have ha := h a (List.mem_cons_self a rest)
      cases a with
      | failure => exact ih hrest
      | apiError => exact ih hrest
      | payload rows =>
        have hlen : ¬ 0 < rows.length := by
          simpa [attemptSucceeds] using ha
        show (if 0 < rows.length then mapData rows else fetchKlines rest) = []
        rw [if_neg hlen]
        exact ih hrest
  · intro pre rows post hpre hrows
    induction pre with
    | nil =>
      show (if 0 < rows.length then mapData rows else fetchKlines post) = mapData rows
      rw [if_pos (List.length_pos.mpr hrows)]
    | cons a rest ih =>
      have hrest : ∀ x ∈ rest, attemptSucceeds x = false :=
        fun x hx => hpre x (List.mem_cons_of_mem a hx)
      have ha := hpre a (List.mem_cons_self a rest)
      cases a with
      | failure => exact ih hrest
      | apiError => exact ih hrest
      | payload rows2 =>
        have hlen : ¬ 0 < rows2.length := by
          simpa [attemptSucceeds] using ha
        show (if 0 < rows2.length then mapData rows2
          else fetchKlines (rest ++ FetchOutcome.payload rows :: post)) = mapData rows
        rw [if_neg hlen]
        exact ih hrest

/-- C8 witness: all strategies failing yields the empty list, and a failing
primary followed by a valid 300-row fallback yields the mapped fallback rows. -/
theorem fetch_fallback_witness :
    fetchKlines [FetchOutcome.failure, FetchOutcome.apiError] = [] ∧
    fetchKlines [FetchOutcome.failure, FetchOutcome.payload sampleRows,
        FetchOutcome.failure] = mapData sampleRows :=
  ⟨fetch_fallback_spec.1 _ (by decide),
   fetch_fallback_spec.2 [FetchOutcome.failure] sampleRows [FetchOutcome.failure]
     (by decide) (by decide)⟩

/-- C9: the batch pipeline keeps exactly the non-null setups and stably moves
every `Watch` setup in front of every non-`Watch` setup, preserving relative
order inside each group. -/
theorem batch_sort_spec (results : List (Option TradeSetup)) :
    fetchAllData results =
      (results.filterMap id).filter (fun t => t.signal = SignalType.WATCH) ++
        (results.filterMap id).filter (fun t => ¬ t.signal = SignalType.WATCH) :=
  stableSort_watchCmp_partition _

theorem emaScan_length (k : ℚ) : ∀ (e : ℚ) (l : List ℚ), (emaScan k e l).length = l.length
  | _, [] => rfl
  | e, c :: cs => by simp [emaScan, emaScan_length]

theorem calculateSMA_length {kl : List Kline} {p : ℕ} (hp : 1 ≤ p) (h : p ≤ kl.length) :
    (calculateSMA kl p).length = kl.length := by
  unfold calculateSMA
  rw [if_neg (not_lt.mpr h)]
  simp only [List.length_append, List.length_replicate, List.length_map, List.length_range]
  omega

theorem calculateEMA_length {kl : List Kline} {p : ℕ} (hp : 1 ≤ p) (h : p ≤ kl.length) :
    (calculateEMA kl p).length = kl.length := by
  unfold calculateEMA
  rw [if_neg (not_lt.mpr h)]
  simp only [List.length_append, List.length_replicate, List.length_cons, emaScan_length,
    List.length_drop, List.length_map]
  omega

theorem pad_getD_left {p : ℕ} (ws : List ℚ) {i : ℕ} (hi : i < p - 1) :
    (List.replicate (p - 1) (0 : ℚ) ++ ws).getD i 0 = 0 := by
  rw [List.getD_eq_getElem?_getD,
    List.getElem?_append_left (by simpa using hi),
    List.getElem?_replicate]
  simp [hi]

theorem pad_getD_right {p : ℕ} (ws : List ℚ) {i : ℕ} (hi : p - 1 ≤ i) :
    (List.replicate (p - 1) (0 : ℚ) ++ ws).getD i 0 = ws.getD (i - (p - 1)) 0 := by
  rw [List.getD_eq_getElem?_getD,
    List.getElem?_append_right (by simpa using hi),
    List.length_replicate, List.getD_eq_getElem?_getD]

theorem pad_seed_scan_getD {p : ℕ} (hp : 1 ≤ p) (seed : ℚ) (scan : List ℚ) {i : ℕ}
    (hi : p - 1 ≤ i) :
    (List.replicate (p - 1) (0 : ℚ) ++ seed :: scan).getD i 0 =
      if i = p - 1 then seed else scan.getD (i - p) 0 := by
  rw [pad_getD_right _ hi]
  by_cases h0 : i = p - 1
  · subst h0
    simp
  · have he : i - (p - 1) = (i - p) + 1 := by omega
    rw [he, List.getD_cons_succ, if_neg h0]

theorem calculateSMA_getD_pad {kl : List Kline} {p i : ℕ} (hi : i < p - 1) :
    (calculateSMA kl p).getD i 0 = 0 := by
  unfold calculateSMA
  split
  · simp
  · exact pad_getD_left _ hi

theorem calculateEMA_getD_pad {kl : List Kline} {p i : ℕ} (hi : i < p - 1) :
    (calculateEMA kl p).getD i 0 = 0 := by
  unfold calculateEMA
  split
  · simp
  · exact pad_getD_left _ hi

theorem calculateSMA_jsLast {kl : List Kline} {p : ℕ} (hp : 1 ≤ p) (h : p ≤ kl.length) :
    jsLast (calculateSMA kl p) = trailingMean kl p := by
  have hlen : (calculateSMA kl p).length = kl.length := calculateSMA_length hp h
  unfold jsLast
  rw [hlen]
  unfold calculateSMA
  rw [if_neg (not_lt.mpr h)]
  rw [pad_getD_right _ (by omega)]
  have hidx : kl.length - 1 - (p - 1) = kl.length - p := by omega
  rw [hidx, List.getD_eq_getElem?_getD, List.getElem?_map, List.getElem?_range (by omega)]
  simp only [Option.map_some', Option.getD_some]
  rw [List.take_of_length_le (by simp only [List.length_drop, List.length_map]; omega)]
  rfl

theorem calculateEMA_getD_seed {kl : List Kline} {p : ℕ} (hp : 1 ≤ p) (h : p ≤ kl.length) :
    (calculateEMA kl p).getD (p - 1) 0 = leadingMean kl p := by
  unfold calculateEMA
  rw [if_neg (not_lt.mpr h)]
  rw [pad_seed_scan_getD hp _ _ (le_refl _), if_pos rfl]
  rfl

theorem emaScan_getD (k : ℚ) : ∀ (l : List ℚ) (e : ℚ) (j : ℕ), j < l.length →
    (emaScan k e l).getD j 0 =
      l.getD j 0 * k + (if j = 0 then e else (emaScan k e l).getD (j - 1) 0) * (1 - k)
  | [], _, j, h => absurd h (by simp)
  | c :: cs, e, 0, _ => by simp [emaScan]
  | c :: cs, e, j + 1, h => by
    have hj : j < cs.length := by simpa using h
    have ih := emaScan_getD k cs (c * k + e * (1 - k)) j hj
    rcases j with _ | j2
    · simpa [emaScan] using ih
    · simpa [emaScan] using ih

theorem calculateEMA_getD_rec {kl : List Kline} {p i : ℕ} (hp : 1 ≤ p) (h : p ≤ kl.length)
    (hi : p ≤ i) (hin : i < kl.length) :
    (calculateEMA kl p).getD i 0 =
      (kl.map Kline.close).getD i 0 * (2 / ((p : ℚ) + 1)) +
        (calculateEMA kl p).getD (i - 1) 0 * (1 - 2 / ((p : ℚ) + 1)) := by
  unfold calculateEMA
  rw [if_neg (not_lt.mpr h)]
  rw [pad_seed_scan_getD hp _ _ (by omega), if_neg (by omega)]
  have hj : i - p < ((kl.map Kline.close).drop p).length := by
    simp only [List.length_drop, List.length_map]
    omega
  rw [emaScan_getD _ _ _ _ hj]
  rw [pad_seed_scan_getD hp _ _ (by omega)]
  have hcl : ((kl.map Kline.close).drop p).getD (i - p) 0 = (kl.map Kline.close).getD i 0 := by
    rw [List.getD_eq_getElem?_getD, List.getElem?_drop, List.getD_eq_getElem?_getD]
    have he : p + (i - p) = i := by omega
    rw [he]
  rw [hcl]
  by_cases h0 : i = p
  · subst h0
    simp
  · rw [if_neg (by omega), if_neg (by omega)]
    have he : i - p - 1 = i - 1 - p := by omega
    rw [he]

theorem emaScan_getD_last (k : ℚ) : ∀ (l : List ℚ) (e : ℚ), l ≠ [] →
    (emaScan k e l).getD (l.length - 1) 0 =
      l.foldl (fun prev c => c * k + prev * (1 - k)) e
  | [], _, h => absurd rfl h
  | c :: cs, e, _ => by
    cases cs with
    | nil => simp [emaScan]
    | cons c2 cs2 =>
      have ih := emaScan_getD_last k (c2 :: cs2) (c * k + e * (1 - k)) (by simp)
      simp only [List.length_cons, Nat.add_sub_cancel] at ih ⊢
      simpa [emaScan] using ih

theorem calculateEMA_jsLast {kl : List Kline} {p : ℕ} (hp : 1 ≤ p) (h : p ≤ kl.length) :
    jsLast (calculateEMA kl p) = emaFinal kl p := by
  have hlen : (calculateEMA kl p).length = kl.length := calculateEMA_length hp h
  unfold jsLast
  rw [hlen]
  unfold calculateEMA
  rw [if_neg (not_lt.mpr h)]
  rw [pad_seed_scan_getD hp _ _ (by omega)]
  by_cases hpn : kl.length - 1 = p - 1
  · rw [if_pos hpn]
    have hnp : kl.length ≤ p := by omega
    unfold emaFinal
    rw [List.drop_eq_nil_of_le (by simpa using hnp)]
    rfl
  · rw [if_neg hpn]
    have hne : (kl.map Kline.close).drop p ≠ [] := by
      simp only [ne_eq, List.drop_eq_nil_iff, List.length_map, not_le]
      omega
    have hidx : kl.length - 1 - p = ((kl.map Kline.close).drop p).length - 1 := by
      simp only [List.length_drop, List.length_map]
      omega
    rw [hidx]
    exact emaScan_getD_last _ _ _ hne

theorem getD_Kline_eq_getElem {l : List Kline} {n : ℕ} (h : n < l.length) (d : Kline) :
    l.getD n d = l[n] := by
  rw [List.getD_eq_getElem?_getD, List.getElem?_eq_getElem h]
  rfl

/-- C6: shape and value of the SMA and EMA series — empty below `period`
candles, otherwise aligned to the input with zero placeholders before
`period - 1`, trailing-window mean as the final SMA element, and the seeded
smoothing recurrence for the EMA (stated for the positive periods the code
uses; `period` is always a positive literal at the call sites). -/
theorem ma_series_spec (kl : List Kline) (p : ℕ) (hp : 1 ≤ p) : C6Prop kl p := by
  constructor
  · intro h
    constructor
    · unfold calculateSMA
      rw [if_pos h]
    · unfold calculateEMA
      rw [if_pos h]
  · intro h
    exact ⟨calculateSMA_length hp h, calculateEMA_length hp h,
      fun i hi => calculateSMA_getD_pad hi,
      fun i hi => calculateEMA_getD_pad hi,
      calculateSMA_jsLast hp h,
      calculateEMA_getD_seed hp h,
      fun i hi hin => calculateEMA_getD_rec hp h hi hin⟩

/-- C6 witness: the series properties at a concrete three-candle history with
period 2. -/
theorem ma_series_spec_witness : C6Prop smallCandles 2 :=
  ma_series_spec smallCandles 2 (by decide)

/-- C7: the ATR is zero below `period + 1` candles and otherwise the mean of
the true ranges `max(high - low, |high - prevClose|, |low - prevClose|)` over
the last `period` candles. -/
theorem atr_spec (kl : List Kline) (p : ℕ) : C7Prop kl p := by
  constructor
  · intro h
    unfold calculateATR
    rw [if_pos h]
  · intro h
    unfold calculateATR
    rw [if_neg (not_lt.mpr h)]
    have hzlen : (kl.zip (kl.drop 1)).length = kl.length - 1 := by
      simp only [List.length_zip, List.length_drop]
      omega
    have hmap : ((kl.zip (kl.drop 1)).drop ((kl.zip (kl.drop 1)).length - p)).map
          (fun pc => trueRange pc.1 pc.2) =
        (List.range p).map (fun j => trAt kl (kl.length - p + j)) := by
      apply List.ext_getElem
      · simp only [List.length_map, List.length_drop, List.length_range, hzlen]
        omega
      · intro i h1 h2
        have hip : i < p := by simpa using h2
        simp only [List.getElem_map, List.getElem_drop, List.getElem_zip, List.getElem_range,
          hzlen]
        unfold trAt
        rw [getD_Kline_eq_getElem (by omega) default, getD_Kline_eq_getElem (by omega) default]
        have e1 : kl.length - 1 - p + i = kl.length - p + i - 1 := by omega
        have e2 : 1 + (kl.length - p + i - 1) = kl.length - p + i := by omega
        simp only [e1, e2]
    rw [hmap]

/-- C7 witness: the ATR properties at a concrete three-candle history with
period 2. -/
theorem atr_spec_witness : C7Prop smallCandles 2 :=
  atr_spec smallCandles 2

/-- C10: with at least 150 candles each of the six series is as long as the
input, so the final-element reads of the evaluator are in bounds, and each read
value is the full-window average (trailing mean for the SMAs, the seeded
recurrence value for the EMAs), never a padding placeholder. -/
theorem ma_last_in_bounds (kl : List Kline) (h : 150 ≤ kl.length) : C10Prop kl := by
  have h20 : 20 ≤ kl.length := by omega
  have h60 : 60 ≤ kl.length := by omega
  have h120 : 120 ≤ kl.length := by omega
  exact ⟨calculateSMA_length (by norm_num) h20,
    calculateSMA_length (by norm_num) h60,
    calculateSMA_length (by norm_num) h120,
    calculateEMA_length (by norm_num) h20,
    calculateEMA_length (by norm_num) h60,
    calculateEMA_length (by norm_num) h120,
    calculateSMA_jsLast (by norm_num) h20,
    calculateSMA_jsLast (by norm_num) h60,
    calculateSMA_jsLast (by norm_num) h120,
    calculateEMA_jsLast (by norm_num) h20,
    calculateEMA_jsLast (by norm_num) h60,
    calculateEMA_jsLast (by norm_num) h120⟩

/-- C10 witness: the in-bounds property at the concrete flat 150-candle
history. -/
theorem ma_last_in_bounds_witness : C10Prop flatCandles :=
  ma_last_in_bounds flatCandles (by decide)

theorem analyzeInterval_inv {s : String} {iv : Interval} {kl : List Kline} {t : TradeSetup}
    (h : analyzeInterval s iv kl = some t) :
    t = { symbol := s, interval := iv, price := lastClose kl, mas := maSetOf kl,
          densityScore := densityScoreOf kl, priceDeviation := priceDeviationOf kl,
          atr := calculateATR kl 14, signal := classifySignal kl,
          entryPrice := lastClose kl, stopLoss := stopLossOf kl,
          takeProfit := takeProfitOf kl, isDense := isDenseOf kl,
          reason := reasonOf kl } := by
  unfold analyzeInterval at h
  split at h
  · cases h
  · split at h
    · cases h
    · exact (Option.some.inj h).symm

theorem classify_eq_long {kl : List Kline} (h : classifySignal kl = SignalType.LONG) :
    isDenseOf kl = false ∧ isBullishAlignment (maSetOf kl) = true ∧
      maxOf (maSetOf kl) < lastClose kl := by
  by_cases hd : isDenseOf kl
  · simp [classifySignal, hd] at h
  · by_cases hb : (isBullishAlignment (maSetOf kl) &&
        decide (lastClose kl > maxOf (maSetOf kl))) = true
    · rw [Bool.and_eq_true] at hb
      exact ⟨by simpa using hd, hb.1, by simpa using of_decide_eq_true hb.2⟩
    · exfalso
      simp only [classifySignal, hd, if_false, Bool.false_eq_true, hb] at h
      split at h <;> cases h

theorem classify_eq_short {kl : List Kline} (h : classifySignal kl = SignalType.SHORT) :
    isDenseOf kl = false ∧ lastClose kl < minOf (maSetOf kl) := by
  by_cases hd : isDenseOf kl
  · simp [classifySignal, hd] at h
  · by_cases hb : (isBullishAlignment (maSetOf kl) &&
        decide (lastClose kl > maxOf (maSetOf kl))) = true
    · simp [classifySignal, hd, hb] at h
    · by_cases hs : (isBearishAlignment (maSetOf kl) &&
          decide (lastClose kl < minOf (maSetOf kl))) = true
      · rw [Bool.and_eq_true] at hs
        exact ⟨by simpa using hd, of_decide_eq_true hs.2⟩
      · exfalso
        simp [classifySignal, hd, hb, hs] at h

theorem minOf_le_maxOf (m : MASet) : minOf m ≤ maxOf m :=
  le_trans (min_le_left _ _) (le_max_left _ _)

theorem calculateATR_nonneg (kl : List Kline) (p : ℕ) : 0 ≤ calculateATR kl p := by
  unfold calculateATR
  split
  · exact le_refl 0
  · apply div_nonneg
    · apply List.sum_nonneg
      intro x hx
      simp only [List.mem_map] at hx
      obtain ⟨pc, _, rfl⟩ := hx
      unfold trueRange
      exact le_trans (abs_nonneg _) (le_trans (le_max_left _ _) (le_max_right _ _))
    · exact Nat.cast_nonneg p

theorem slBufferOf_nonneg (kl : List Kline) : 0 ≤ slBufferOf kl := by
  unfold slBufferOf
  have := calculateATR_nonneg kl 14
  linarith

/-- C1 counterexample: a dense history sitting at 102 that gaps to 100 on the
final candle with zero ATR is classified `Watch`, yet its stop-loss lands above
the entry and its take-profit below it — the claimed
`stopLoss < price < takeProfit` fails for a `Watch` setup. -/
theorem sl_tp_orientation_cex :
    (analyzeInterval sampleSymbol Interval.h4 c1Candles).map
        (fun t => (t.signal, decide (t.stopLoss < t.price), decide (t.price < t.takeProfit))) =
      some (SignalType.WATCH, false, false) := by decide

/-- C1 (amended): for every accepted evaluation the directional signals get the
claimed strict sides (`Long`: stopLoss < price < takeProfit; `Short`:
takeProfit < price < stopLoss), while for `Watch` and `Wait` the code only
guarantees the 1:2 mirror identity of take-profit around the entry against the
stop-loss, not the side placement. -/
theorem sl_tp_orientation (s : String) (iv : Interval) (kl : List Kline) (t : TradeSetup)
    (h : analyzeInterval s iv kl = some t) : C1Prop t := by
  obtain rfl := analyzeInterval_inv h
  refine ⟨?_, ?_, ?_, ?_⟩
  · intro hs
    replace hs : classifySignal kl = SignalType.LONG := hs
    obtain ⟨hd, hb, hmax⟩ := classify_eq_long hs
    have hsl : stopLossOf kl = minOf (maSetOf kl) - slBufferOf kl := by
      unfold stopLossOf
      rw [if_pos (Or.inl hs)]
    have htp : takeProfitOf kl = lastClose kl + (lastClose kl - stopLossOf kl) * 2 := by
      unfold takeProfitOf
      rw [if_pos (Or.inl hs)]
    have hmm := minOf_le_maxOf (maSetOf kl)
    have hbuf := slBufferOf_nonneg kl
    constructor
    · show stopLossOf kl < lastClose kl
      rw [hsl]
      linarith
    · show lastClose kl < takeProfitOf kl
      rw [htp, hsl]
      linarith
  · intro hs
    replace hs : classifySignal kl = SignalType.SHORT := hs
    obtain ⟨hd, hmin⟩ := classify_eq_short hs
    have hcond : ¬(classifySignal kl = SignalType.LONG ∨ classifySignal kl = SignalType.WATCH) := by
      rw [hs]
      rintro (hc | hc) <;> exact SignalType.noConfusion hc
    have hsl : stopLossOf kl = maxOf (maSetOf kl) + slBufferOf kl := by
      unfold stopLossOf
      rw [if_neg hcond]
    have htp : takeProfitOf kl = lastClose kl - (stopLossOf kl - lastClose kl) * 2 := by
      unfold takeProfitOf
      rw [if_neg hcond]
    have hmm := minOf_le_maxOf (maSetOf kl)
    have hbuf := slBufferOf_nonneg kl
    constructor
    · show takeProfitOf kl < lastClose kl
      rw [htp, hsl]
      linarith
    · show lastClose kl < stopLossOf kl
      rw [hsl]
      linarith
  · intro hs
    replace hs : classifySignal kl = SignalType.WATCH := hs
    have hsl : takeProfitOf kl = lastClose kl + (lastClose kl - stopLossOf kl) * 2 := by
      unfold takeProfitOf
      rw [if_pos (Or.inr hs)]
    show takeProfitOf kl - lastClose kl = 2 * (lastClose kl - stopLossOf kl)
    rw [hsl]
    ring
  · intro hs
    replace hs : classifySignal kl = SignalType.WAIT := hs
    have hcond : ¬(classifySignal kl = SignalType.LONG ∨ classifySignal kl = SignalType.WATCH) := by
      rw [hs]
      rintro (hc | hc) <;> exact SignalType.noConfusion hc
    have hsl : takeProfitOf kl = lastClose kl - (stopLossOf kl - lastClose kl) * 2 := by
      unfold takeProfitOf
      rw [if_neg hcond]
    show lastClose kl - takeProfitOf kl = 2 * (stopLossOf kl - lastClose kl)
    rw [hsl]
    ring

/-- C1 witness: the amended property at the concrete flat 150-candle history
(classified `Watch`, where the mirror identity holds with equality). -/
theorem sl_tp_orientation_witness : C1Prop flatSetup :=
  sl_tp_orientation sampleSymbol Interval.h4 flatCandles flatSetup (by decide)

/-- C2 counterexample: a concrete accepted history with all six averages
exactly 100 and final close 100.5 produces priceDeviation ≠ 0.5 (the code
divides by the current price 100.5, not by the average 100). -/
theorem flat_scenario_cex :
    (analyzeInterval sampleSymbol Interval.h4 c2Candles).map
        (fun t => (t.mas, t.price, decide (t.priceDeviation = 1 / 2))) =
      some (⟨100, 100, 100, 100, 100, 100⟩, 201 / 2, false) := by decide

/-- C2 (amended): when all six computed averages are 100 and the current price
is 100.5, the evaluator produces densityScore = 0,
priceDeviation = 100/201 (≈ 0.4975, i.e. 0.5/100.5·100 — not 0.5),
isDense = true and Signal = `Watch`. -/
theorem flat_scenario_amended (s : String) (iv : Interval) (kl : List Kline) (t : TradeSetup)
    (h : analyzeInterval s iv kl = some t)
    (hmas : maSetOf kl = ⟨100, 100, 100, 100, 100, 100⟩)
    (hp : lastClose kl = 201 / 2) :
    t.densityScore = 0 ∧ t.priceDeviation = 100 / 201 ∧ t.isDense = true ∧
      t.signal = SignalType.WATCH := by
  obtain rfl := analyzeInterval_inv h
  have hd : densityScoreOf kl = 0 := by
    unfold densityScoreOf
    rw [hmas, hp]
    norm_num [maxOf, minOf]
  have hav : averageMAOf kl = 100 := by
    unfold averageMAOf
    rw [hmas]
    norm_num [MASet.values]
  have hpd : priceDeviationOf kl = 100 / 201 := by
    unfold priceDeviationOf
    rw [hav, hp]
    norm_num
    rw [abs_of_pos (by norm_num)]
    norm_num
  have hdense : isDenseOf kl = true := by
    unfold isDenseOf
    rw [hd, hpd]
    decide
  refine ⟨hd, hpd, hdense, ?_⟩
  show classifySignal kl = SignalType.WATCH
  simp [classifySignal, hdense]

/-- C2 witness: the amended scenario at the concrete history `c2Candles`. -/
theorem flat_scenario_witness :
    c2Setup.densityScore = 0 ∧ c2Setup.priceDeviation = 100 / 201 ∧ c2Setup.isDense = true ∧
      c2Setup.signal = SignalType.WATCH :=
  flat_scenario_amended sampleSymbol Interval.h4 c2Candles c2Setup
    (by decide) (by decide) (by decide)

/-- C4: the signal classification of an accepted evaluation is the source's
priority chain — dense gives `Watch`, else bullish alignment with a breakout
above all six lines gives `Long`, else the mirrored condition gives `Short`,
else tight averages with a run-away price give the flagged `Wait`, else the
generic `Wait` — and the reason matches the branch taken. -/
theorem classification_priority (s : String) (iv : Interval) (kl : List Kline) (t : TradeSetup)
    (h : analyzeInterval s iv kl = some t) : C4Prop kl t := by
  obtain rfl := analyzeInterval_inv h
  refine ⟨?_, ?_, ?_, ?_, ?_⟩
  · intro hd
    constructor
    · show classifySignal kl = _
      simp [classifySignal, hd]
    · show reasonOf kl = _
      simp [reasonOf, hd]
  · intro hd hb hmax
    have hcond : (isBullishAlignment (maSetOf kl) &&
        decide (lastClose kl > maxOf (maSetOf kl))) = true := by
      rw [hb]
      simpa using hmax
    constructor
    · show classifySignal kl = _
      simp [classifySignal, hd, hcond]
    · show reasonOf kl = _
      simp [reasonOf, hd, hcond]
  · intro hd hbear hmin
    have h1 : (maSetOf kl).ma20 < (maSetOf kl).ma60 := by
      unfold isBearishAlignment at hbear
      rw [Bool.and_eq_true] at hbear
      exact of_decide_eq_true hbear.1
    have hbull : (isBullishAlignment (maSetOf kl) &&
        decide (lastClose kl > maxOf (maSetOf kl))) = false := by
      have : ¬((maSetOf kl).ma20 > (maSetOf kl).ma60) := not_lt.mpr h1.le
      simp [isBullishAlignment, this]
    have hcond : (isBearishAlignment (maSetOf kl) &&
        decide (lastClose kl < minOf (maSetOf kl))) = true := by
      rw [hbear]
      simpa using hmin
    constructor
    · show classifySignal kl = _
      simp [classifySignal, hd, hbull, hcond]
    · show reasonOf kl = _
      simp [reasonOf, hd, hbull, hcond]
  · intro hd hbull hbear hds hpd
    have hran : (decide (densityScoreOf kl < DENSE_THRESHOLD) &&
        decide (priceDeviationOf kl ≥ PRICE_DEV_THRESHOLD)) = true := by
      simp [hds, ge_iff_le, hpd]
    constructor
    · show classifySignal kl = _
      simp [classifySignal, hd, hbull, hbear]
    · show reasonOf kl = _
      simp [reasonOf, hd, hbull, hbear, hran]
  · intro hd hbull hbear hnot
    have hran : (decide (densityScoreOf kl < DENSE_THRESHOLD) &&
        decide (priceDeviationOf kl ≥ PRICE_DEV_THRESHOLD)) = false := by
      by_cases hA : densityScoreOf kl < DENSE_THRESHOLD
      · have hB : ¬ PRICE_DEV_THRESHOLD ≤ priceDeviationOf kl := fun hB => hnot ⟨hA, hB⟩
        simp [ge_iff_le, hB]
      · simp [hA]
    constructor
    · show classifySignal kl = _
      simp [classifySignal, hd, hbull, hbear]
    · show reasonOf kl = _
      simp [reasonOf, hd, hbull, hbear, hran]

/-- C4 witness: the classification property at the concrete flat history,
which takes the dense branch. -/
theorem classification_priority_witness : C4Prop flatCandles flatSetup :=
  classification_priority sampleSymbol Interval.h4 flatCandles flatSetup (by decide)

end MAStrategy
